import Mathlib

/- Verification of the GTK path stroker, src/gsk/gskpathstroke.c.

   The embedding models 2D points as pairs of real numbers and the C
   floating-point arithmetic as exact real arithmetic; libm atan2 is
   modelled by the complex argument (range (-pi, pi], atan2 0 0 = 0),
   sin, cos, acos and sqrt by their Mathlib counterparts.

   The stroker depends on external collaborators that are not part of
   src/ (the GskCurve primitive in gskcurve.c, the GskPathBuilder, and
   the contour walker).  Those are modelled from the specification; each
   such definition carries a comment saying so.  Everything else is a
   direct translation of the functions in src/gsk/gskpathstroke.c and
   keeps their names. -/

noncomputable section

namespace PathStroke

abbrev Point := ℝ × ℝ

/-- DEG_TO_RAD from gskpathstroke.c. -/
def degToRad (d : ℝ) : ℝ := d * Real.pi / 180

/-- Dot product of two 2D vectors (graphene_vec2_dot). -/
def vdot (a b : Point) : ℝ := a.1 * b.1 + a.2 * b.2

/-- Modelled from the spec: graphene_vec2_normalize, the unit vector in
    the direction of v (the zero vector maps to the zero vector, the
    Lean convention for division by zero). -/
def vnormalize (v : Point) : Point :=
  let n := Real.sqrt (v.1 ^ 2 + v.2 ^ 2)
  (v.1 / n, v.2 / n)

/-- get_tangent from gskpathstroke.c: normalized direction from p0 to p1. -/
def get_tangent (p0 p1 : Point) : Point :=
  vnormalize (p1.1 - p0.1, p1.2 - p0.2)

/-- get_normal from gskpathstroke.c: normalized (p0.y - p1.y, p1.x - p0.x). -/
def get_normal (p0 p1 : Point) : Point :=
  vnormalize (p0.2 - p1.2, p1.1 - p0.1)

/-- Modelled from the spec: libm atan2, as the argument of the complex
    number x + i y, which lies in (-pi, pi] and is 0 at the origin. -/
def atan2 (y x : ℝ) : ℝ := Complex.arg ⟨x, y⟩

/-- angle_between from gskpathstroke.c: atan2 difference of the two
    tangents, then the two sequential wrap-around corrections. -/
def angle_between (t1 t2 : Point) : ℝ :=
  let angle := atan2 t2.2 t2.1 - atan2 t1.2 t1.1
  let angle1 := if angle > Real.pi then angle - 2 * Real.pi else angle
  if angle1 < - Real.pi then angle1 + 2 * Real.pi else angle1

/-- line_intersect from gskpathstroke.c: intersection of the infinite
    lines a + t ab and c + s cd, none when the determinant is within
    0.001 of zero. -/
def line_intersect (a ab c cd : Point) : Option Point :=
  let a1 := ab.2
  let b1 := - ab.1
  let c1 := a1 * a.1 + b1 * a.2
  let a2 := cd.2
  let b2 := - cd.1
  let c2 := a2 * c.1 + b2 * c.2
  let det := a1 * b2 - a2 * b1
  if |det| ≤ 1 / 1000 then none
  else some ((b2 * c1 - b1 * c2) / det, (a1 * c2 - a2 * c1) / det)

/-- GskCurve: a line, a cubic Bezier, or a conic (rational quadratic
    with weight w stored between its two interior points, matching the
    (p0, p1, weight, p3) layout of gskcurve). -/
inductive Curve : Type
  | line (p0 p1 : Point)
  | cubic (p0 p1 p2 p3 : Point)
  | conic (p0 p1 : Point) (w : ℝ) (p2 : Point)
deriving DecidableEq

/-- Modelled from the spec: gsk_curve_get_start_point. -/
def curveStart : Curve → Point
  | .line p0 _ => p0
  | .cubic p0 _ _ _ => p0
  | .conic p0 _ _ _ => p0

/-- Modelled from the spec: gsk_curve_get_end_point. -/
def curveEnd : Curve → Point
  | .line _ p1 => p1
  | .cubic _ _ _ p3 => p3
  | .conic _ _ _ p2 => p2

/-- Modelled from the spec: gsk_curve_get_start_tangent, the unit
    tangent at parameter 0, falling back to the next non-degenerate
    control-point difference when control points coincide. -/
def curveStartTangent : Curve → Point
  | .line p0 p1 => get_tangent p0 p1
  | .cubic p0 p1 p2 p3 =>
      if p1 ≠ p0 then get_tangent p0 p1
      else if p2 ≠ p0 then get_tangent p0 p2
      else get_tangent p0 p3
  | .conic p0 p1 _ p2 =>
      if p1 ≠ p0 then get_tangent p0 p1 else get_tangent p0 p2

/-- Modelled from the spec: gsk_curve_get_end_tangent. -/
def curveEndTangent : Curve → Point
  | .line p0 p1 => get_tangent p0 p1
  | .cubic p0 p1 p2 p3 =>
      if p2 ≠ p3 then get_tangent p2 p3
      else if p1 ≠ p3 then get_tangent p1 p3
      else get_tangent p0 p3
  | .conic p0 p1 _ p2 =>
      if p1 ≠ p2 then get_tangent p1 p2 else get_tangent p0 p2

/-- Linear interpolation between two points. -/
def lerp (a b : Point) (t : ℝ) : Point :=
  (a.1 + t * (b.1 - a.1), a.2 + t * (b.2 - a.2))

/-- Homogeneous interpolation for conic subdivision: a point paired
    with its weight. -/
def hlerp (a b : Point × ℝ) (t : ℝ) : Point × ℝ :=
  ((a.1.1 + t * (b.1.1 - a.1.1), a.1.2 + t * (b.1.2 - a.1.2)),
    a.2 + t * (b.2 - a.2))

/-- Projection of a homogeneous conic (three weighted points) to the
    standard form with endpoint weights 1. -/
def conicOfHom (q0 q1 q2 : Point × ℝ) : Curve :=
  .conic (q0.1.1 / q0.2, q0.1.2 / q0.2)
    (q1.1.1 / q1.2, q1.1.2 / q1.2)
    (q1.2 / Real.sqrt (q0.2 * q2.2))
    (q2.1.1 / q2.2, q2.1.2 / q2.2)

/-- Modelled from the spec: gsk_curve_split, both halves at parameter t.
    Lines split by interpolation, cubics by de Casteljau, conics by
    de Casteljau on homogeneous points with weight renormalization. -/
def curveSplit : Curve → ℝ → Curve × Curve
  | .line p0 p1, t =>
      let m := lerp p0 p1 t
      (.line p0 m, .line m p1)
  | .cubic p0 p1 p2 p3, t =>
      let ab := lerp p0 p1 t
      let bc := lerp p1 p2 t
      let cd := lerp p2 p3 t
      let abbc := lerp ab bc t
      let bccd := lerp bc cd t
      let m := lerp abbc bccd t
      (.cubic p0 ab abbc m, .cubic m bccd cd p3)
  | .conic p0 p1 w p2, t =>
      let q0 : Point × ℝ := (p0, 1)
      let q1 : Point × ℝ := ((w * p1.1, w * p1.2), w)
      let q2 : Point × ℝ := (p2, 1)
      let a := hlerp q0 q1 t
      let b := hlerp q1 q2 t
      let m := hlerp a b t
      (conicOfHom q0 a m, conicOfHom m b q2)

/-- Modelled from the spec: gsk_curve_segment, the sub-curve over
    the parameter interval from t0 to t1, realized as two splits. -/
def curveSegment (c : Curve) (t0 t1 : ℝ) : Curve :=
  (curveSplit (curveSplit c t0).2 ((t1 - t0) / (1 - t0))).1

/-- Modelled from the spec: gsk_curve_reverse, the curve traversed
    backwards. -/
def curveReverse : Curve → Curve
  | .line p0 p1 => .line p1 p0
  | .cubic p0 p1 p2 p3 => .cubic p3 p2 p1 p0
  | .conic p0 p1 w p2 => .conic p2 p1 w p0

/-- Point translated by d times a unit vector. -/
def ptrans (p : Point) (d : ℝ) (n : Point) : Point :=
  (p.1 + d * n.1, p.2 + d * n.2)

/-- Modelled from the spec: gsk_curve_offset, the approximate offset at
    signed distance d.  Lines translate along their normal; cubics and
    conics displace their endpoints along the endpoint normals and move
    the interior control points with the adjacent endpoint so that the
    endpoint tangents are preserved. -/
def curveOffset : Curve → ℝ → Curve
  | .line p0 p1, d =>
      let n := get_normal p0 p1
      .line (ptrans p0 d n) (ptrans p1 d n)
  | .cubic p0 p1 p2 p3, d =>
      let n0 := get_normal p0 p1
      let n3 := get_normal p2 p3
      .cubic (ptrans p0 d n0) (ptrans p1 d n0) (ptrans p2 d n3) (ptrans p3 d n3)
  | .conic p0 p1 w p2, d =>
      let n0 := get_normal p0 p1
      let n1 := get_normal p1 p2
      .conic (ptrans p0 d n0) (ptrans p1 d (vnormalize (n0 + n1))) w (ptrans p2 d n1)

/-- Well-formedness of a curve value: a conic has positive weight (the
    spec requires a positive weight for conics). -/
def curveWF : Curve → Prop
  | .conic _ _ w _ => 0 < w
  | _ => True

/-- A GskPathBuilder operation.  Modelled from the spec: the output sink
    accepts move_to, line_to, curve_to, conic_to, svg_arc_to and close. -/
inductive Op : Type
  | move (p : Point)
  | lineTo (p : Point)
  | curveTo (p1 p2 p3 : Point)
  | conicTo (p1 : Point) (w : ℝ) (p2 : Point)
  | arcTo (rx ry rot large sweep : ℝ) (p : Point)
  | close
deriving DecidableEq

/-- A path builder or a finished path is its list of operations, in
    order; a parent builder collects finished sub-paths.  Modelled from
    the spec: each builder call appends one operation, close appends a
    close operation, add_path appends the finished sub-path. -/
abbrev Path := List Op

/-- path_builder_add_curve from gskpathstroke.c: the operation emitted
    for a curve whose start point is the current point. -/
def curveToOps : Curve → List Op
  | .line _ p1 => [.lineTo p1]
  | .cubic _ p1 p2 p3 => [.curveTo p1 p2 p3]
  | .conic _ p1 w p2 => [.conicTo p1 w p2]

inductive LineJoin : Type
  | miter
  | miterClip
  | round
  | bevel
deriving DecidableEq

inductive LineCap : Type
  | butt
  | round
  | square
deriving DecidableEq

/-- GskStroke parameters (dashing is out of scope: the stroker consumes
    pre-dashed segments through the same callback channel). -/
structure StrokeParams : Type where
  lineWidth : ℝ
  lineJoin : LineJoin
  miterLimit : ℝ
  lineCap : LineCap

/-- add_line_join from gskpathstroke.c: the operations appended to the
    builder of the joined side, for corner c, previous-side end a with
    tangent ta, next-side start b with tangent tb, and turn angle.  In
    the miter-clip fallback the C code ignores the return value of
    line_intersect, leaving the clip points uninitialized when the
    lines are parallel; the model reads them as (0, 0) in that case. -/
def add_line_join (stroke : StrokeParams) (c a ta b tb : Point)
    (angle : ℝ) : List Op :=
  match stroke.lineJoin with
  | .miter | .miterClip =>
    match line_intersect a ta b tb with
    | none => []
    | some p =>
      let s := |Real.sin ((Real.pi - angle) / 2)|
      if 1 / s ≤ stroke.miterLimit then [.lineTo p, .lineTo b]
      else if stroke.lineJoin = .miterClip then
        let q : Point := ((c.1 + p.1) / 2, (c.2 + p.2) / 2)
        let n := get_normal c p
        let a1 := (line_intersect a ta q n).getD (0, 0)
        let b1 := (line_intersect b tb q n).getD (0, 0)
        [.lineTo a1, .lineTo b1, .lineTo b]
      else [.lineTo b]
  | .round =>
      [.arcTo (stroke.lineWidth / 2) (stroke.lineWidth / 2) 0 0
        (if angle > 0 then 1 else 0) b]
  | .bevel => [.lineTo b]

/-- add_line_cap from gskpathstroke.c: the operations appended when
    capping from point s to point e. -/
def add_line_cap (stroke : StrokeParams) (s e : Point) : List Op :=
  match stroke.lineCap with
  | .butt => [.lineTo e]
  | .round => [.arcTo (stroke.lineWidth / 2) (stroke.lineWidth / 2) 0 1 0 e]
  | .square =>
      let cx := (s.1 + e.1) / 2
      let cy := (s.2 + e.2) / 2
      let dx := s.2 - cy
      let dy := - s.1 + cx
      [.lineTo (s.1 + dx, s.2 + dy), .lineTo (e.1 + dx, e.2 + dy), .lineTo e]

/-- Modelled from the spec: the contour walker of gsk_path_foreach with
    curves and conics allowed, threading the current point and the
    contour start point; a close operation yields the line back to the
    contour start, a move yields no curve (add_op skips moves).  An arc
    operation is carried as the segment to its endpoint; the stroker
    never feeds a path containing arcs back through the walker in the
    flows the claims cover. -/
def pathSegs : List Op → Point → Point → List Curve
  | [], _, _ => []
  | .move p :: rest, _, _ => pathSegs rest p p
  | .lineTo p :: rest, cp, sp => .line cp p :: pathSegs rest p sp
  | .curveTo p1 p2 p3 :: rest, cp, sp => .cubic cp p1 p2 p3 :: pathSegs rest p3 sp
  | .conicTo p1 w p2 :: rest, cp, sp => .conic cp p1 w p2 :: pathSegs rest p2 sp
  | .arcTo _ _ _ _ _ p :: rest, cp, sp => .line cp p :: pathSegs rest p sp
  | .close :: rest, cp, sp => .line cp sp :: pathSegs rest sp sp

/-- The non-move segments of a path, in order. -/
def pathSegments (p : Path) : List Curve := pathSegs p (0, 0) (0, 0)

/-- path_builder_add_reverse_path from gskpathstroke.c: add_op prepends
    the reverse of each non-move segment to a list, then the collected
    curves are appended to the builder in list order. -/
def path_builder_add_reverse_path (b : Path) (p : Path) : Path :=
  let ops := (pathSegments p).foldl (fun acc c => curveReverse c :: acc) []
  ops.foldl (fun bb c => bb ++ curveToOps c) b

/-- StrokeData from gskpathstroke.c: the orchestrator state.  The
    builder field is the final sink collecting finished sub-paths. -/
structure StrokeData : Type where
  builder : List Path
  stroke : StrokeParams
  left : Path
  right : Path
  hasCurrentPoint : Bool
  hasCurrentCurve : Bool
  isFirstCurve : Bool
  c : Curve
  l : Curve
  r : Curve
  c0 : Curve
  l0 : Curve
  r0 : Curve

/-- The zero curve of the zero-initialized StrokeData. -/
def zeroCurve : Curve := .line (0, 0) (0, 0)

/-- The memset-to-zero initial StrokeData of
    gsk_contour_default_add_stroke. -/
def initStroke (params : StrokeParams) : StrokeData where
  builder := []
  stroke := params
  left := []
  right := []
  hasCurrentPoint := false
  hasCurrentCurve := false
  isFirstCurve := false
  c := zeroCurve
  l := zeroCurve
  r := zeroCurve
  c0 := zeroCurve
  l0 := zeroCurve
  r0 := zeroCurve

/-- append_right from gskpathstroke.c. -/
def append_right (s : StrokeData) (curve : Curve) : StrokeData :=
  if s.isFirstCurve then
    { s with r0 := curve, right := s.right ++ [Op.move (curveEnd curve)] }
  else
    { s with right := s.right ++ curveToOps curve }

/-- append_left from gskpathstroke.c. -/
def append_left (s : StrokeData) (curve : Curve) : StrokeData :=
  if s.isFirstCurve then
    { s with l0 := curve, left := s.left ++ [Op.move (curveEnd curve)] }
  else
    { s with left := s.left ++ curveToOps curve }

/-- The result type of the external curve-curve intersector
    gsk_curve_intersect with max_hits 1: the two parameters and the
    crossing point, or none.  The intersector itself is not part of
    src/, so the stroker is parameterized over it. -/
abbrev Intersector := Curve → Curve → Option (ℝ × ℝ × Point)

/-- add_segments from gskpathstroke.c: flush the pending offsets, add
    the join between the pending segment and the new curve (classified
    by the turn angle), trim via intersection on the inner side, and
    make the new curve with its offsets r and l pending. -/
def add_segments (ix : Intersector) (s : StrokeData)
    (curve r l : Curve) : StrokeData :=
  let tangent1 := curveEndTangent s.c
  let tangent2 := curveStartTangent curve
  let angle := angle_between tangent1 tangent2
  if |angle| < degToRad 5 then
    let sa := append_right s s.r
    let sb := { sa with right := sa.right ++ [Op.lineTo (curveStart r)] }
    let sc := append_left sb sb.l
    let sd := { sc with left := sc.left ++ [Op.lineTo (curveStart l)] }
    { sd with c := curve, r := r, l := l }
  else if 0 < angle then
    match ix s.r r with
    | some (t1, t2, _p) =>
      let rOld := (curveSplit s.r t1).1
      let rNew := (curveSplit r t2).2
      let sa := append_right { s with r := rOld } rOld
      let sb := append_left sa sa.l
      let jo := add_line_join s.stroke (curveStart curve) (curveEnd sb.l)
        tangent1 (curveStart l) tangent2 angle
      let sc := { sb with left := sb.left ++ jo }
      { sc with c := curve, r := rNew, l := l }
    | none =>
      let sa := append_right s s.r
      let sb := { sa with right := sa.right ++ [Op.lineTo (curveStart r)] }
      let sc := append_left sb sb.l
      let jo := add_line_join s.stroke (curveStart curve) (curveEnd sc.l)
        tangent1 (curveStart l) tangent2 angle
      let sd := { sc with left := sc.left ++ jo }
      { sd with c := curve, r := r, l := l }
  else
    let sa := append_right s s.r
    let jo := add_line_join s.stroke (curveStart curve) (curveEnd sa.r)
      tangent1 (curveStart r) tangent2 angle
    let sb := { sa with right := sa.right ++ jo }
    match ix s.l l with
    | some (t1, t2, _p) =>
      let lOld := (curveSplit s.l t1).1
      let lNew := (curveSplit l t2).2
      let sc := append_left { sb with l := lOld } lOld
      { sc with c := curve, r := r, l := lNew }
    | none =>
      let sc := append_left sb sb.l
      let sd := { sc with left := sc.left ++ [Op.lineTo (curveStart l)] }
      { sd with c := curve, r := r, l := l }

/-- add_curve from gskpathstroke.c: offer one simple piece to the
    orchestrator. -/
def add_curve (ix : Intersector) (s : StrokeData) (curve : Curve) :
    StrokeData :=
  let l := curveOffset curve (- (s.stroke.lineWidth / 2))
  let r := curveOffset curve (s.stroke.lineWidth / 2)
  if s.hasCurrentCurve then
    { add_segments ix s curve r l with isFirstCurve := false }
  else
    { s with
      c0 := curve, r0 := r, l0 := l,
      right := s.right ++ [Op.move (curveStart r)],
      left := s.left ++ [Op.move (curveStart l)],
      c := curve, r := r, l := l,
      hasCurrentCurve := true, isFirstCurve := true }

/-- cubic_is_simple from gskpathstroke.c: the control-polygon turn
    angles do not have opposite signs, and the angle between the
    endpoint normals is below pi/3. -/
def cubic_is_simple : Curve → Bool
  | .cubic p0 p1 p2 p3 =>
    let t1 := get_tangent p0 p1
    let t2 := get_tangent p1 p2
    let t3 := get_tangent p2 p3
    let a1 := angle_between t1 t2
    let a2 := angle_between t2 t3
    if (a1 < 0 ∧ 0 < a2) ∨ (0 < a1 ∧ a2 < 0) then false
    else
      let n1 := get_normal p0 p1
      let n2 := get_normal p2 p3
      if |Real.arccos (vdot n1 n2)| ≥ Real.pi / 3 then false else true
  | _ => true

/-- The rotation applied by align_points in gskpathstroke.c to one
    point, for precomputed sine and cosine. -/
def alignPoint (p a : Point) (sv cv : ℝ) : Point :=
  ((p.1 - a.1) * cv - (p.2 - a.2) * sv, (p.1 - a.1) * sv + (p.2 - a.2) * cv)

/-- cubic_curvature_points from gskpathstroke.c: curvature extrema and
    inflections of a cubic inside (0, 1), from the quadratic in the
    aligned frame; at most three parameters, in source order. -/
def cubic_curvature_points : Curve → List ℝ
  | .cubic p0 p1 p2 p3 =>
    let t1 := get_tangent p0 p3
    let ang := - atan2 t1.2 t1.1
    let sv := Real.sin ang
    let cv := Real.cos ang
    let q1 := alignPoint p1 p0 sv cv
    let q2 := alignPoint p2 p0 sv cv
    let q3 := alignPoint p3 p0 sv cv
    let a := q2.1 * q1.2
    let b := q3.1 * q1.2
    let c := q1.1 * q2.2
    let d := q3.1 * q2.2
    let x := - 3 * a + 2 * b + 3 * c - d
    let y := 3 * a - b - 3 * c
    let z := c - a
    if |x| ≥ 1 / 1000 then
      let tt := - y / (2 * x)
      let r1 := if 0 < tt ∧ tt < 1 then [tt] else []
      let u2 := y ^ 2 - 4 * x * z
      let r2 :=
        if u2 > 1 / 1000 then
          let u := Real.sqrt u2
          let ta := (- y + u) / (2 * x)
          let tb := (- y - u) / (2 * x)
          (if 0 < ta ∧ ta < 1 then [ta] else []) ++
            (if 0 < tb ∧ tb < 1 then [tb] else [])
        else []
      r1 ++ r2
    else []
  | _ => []

/-- Insertion into a sorted list of reals (the qsort comparator
    cmpfloat orders ascending). -/
def insertR (x : ℝ) : List ℝ → List ℝ
  | [] => [x]
  | y :: ys => if x ≤ y then x :: y :: ys else y :: insertR x ys

/-- Ascending sort of a list of reals, modelling qsort with cmpfloat. -/
def sortR : List ℝ → List ℝ
  | [] => []
  | x :: xs => insertR x (sortR xs)

/-- Consecutive pairs of a list, the loop over t[i], t[i+1]. -/
def pairs : List ℝ → List (ℝ × ℝ)
  | a :: b :: rest => (a, b) :: pairs (b :: rest)
  | _ => []

/-- MAX_SUBDIVISION from gskpathstroke.c. -/
def MAX_SUBDIVISION : Nat := 8

/-- subdivide_and_add_curve from gskpathstroke.c.  The level counts
    down from MAX_SUBDIVISION; level 0 accepts unconditionally, a level
    strictly between 0 and 8 accepts simple cubics, level 8 splits at
    the curvature points when there are any, and otherwise the cubic is
    split at 0.5. -/
def subdivide_and_add_curve (ix : Intersector) (s : StrokeData)
    (curve : Curve) : Nat → StrokeData
  | 0 => add_curve ix s curve
  | n + 1 =>
    if n + 1 < MAX_SUBDIVISION ∧ cubic_is_simple curve then
      add_curve ix s curve
    else
      let roots := cubic_curvature_points curve
      if n + 1 = MAX_SUBDIVISION ∧ roots ≠ [] then
        let ts := sortR (0 :: 1 :: roots)
        (pairs ts).foldl
          (fun st pr =>
            subdivide_and_add_curve ix st (curveSegment curve pr.1 pr.2) n) s
      else
        subdivide_and_add_curve ix
          (subdivide_and_add_curve ix s (curveSplit curve (1 / 2)).1 n)
          (curveSplit curve (1 / 2)).2 n

/-- conic_is_simple from gskpathstroke.c. -/
def conic_is_simple : Curve → Bool
  | .conic p0 p1 _ p2 =>
    let n1 := get_normal p0 p1
    let n2 := get_normal p1 p2
    if |Real.arccos (vdot n1 n2)| ≥ Real.pi / 3 then false else true
  | _ => true

/-- subdivide_and_add_conic from gskpathstroke.c. -/
def subdivide_and_add_conic (ix : Intersector) (s : StrokeData)
    (curve : Curve) : Nat → StrokeData
  | 0 => add_curve ix s curve
  | n + 1 =>
    if n + 1 < MAX_SUBDIVISION ∧ conic_is_simple curve then
      add_curve ix s curve
    else
      subdivide_and_add_conic ix
        (subdivide_and_add_conic ix s (curveSplit curve (1 / 2)).1 n)
        (curveSplit curve (1 / 2)).2 n

/-- The list of pieces that subdivide_and_add_curve passes on to
    add_curve, in order: a mirror of its recursion that records the
    accepted pieces instead of threading the orchestrator state. -/
def subPieces (curve : Curve) : Nat → List Curve
  | 0 => [curve]
  | n + 1 =>
    if n + 1 < MAX_SUBDIVISION ∧ cubic_is_simple curve then [curve]
    else
      let roots := cubic_curvature_points curve
      if n + 1 = MAX_SUBDIVISION ∧ roots ≠ [] then
        let ts := sortR (0 :: 1 :: roots)
        (pairs ts).flatMap fun pr => subPieces (curveSegment curve pr.1 pr.2) n
      else
        subPieces (curveSplit curve (1 / 2)).1 n ++
          subPieces (curveSplit curve (1 / 2)).2 n

/-- Like subPieces, with each accepted piece tagged by the level at
    which subdivide_and_add_curve accepted it. -/
def subPiecesLv (curve : Curve) : Nat → List (Curve × Nat)
  | 0 => [(curve, 0)]
  | n + 1 =>
    if n + 1 < MAX_SUBDIVISION ∧ cubic_is_simple curve then [(curve, n + 1)]
    else
      let roots := cubic_curvature_points curve
      if n + 1 = MAX_SUBDIVISION ∧ roots ≠ [] then
        let ts := sortR (0 :: 1 :: roots)
        (pairs ts).flatMap fun pr => subPiecesLv (curveSegment curve pr.1 pr.2) n
      else
        subPiecesLv (curveSplit curve (1 / 2)).1 n ++
          subPiecesLv (curveSplit curve (1 / 2)).2 n

/-- The nesting depth of the recursive calls of
    subdivide_and_add_curve below a call at the given level. -/
def subdivDepth (curve : Curve) : Nat → Nat
  | 0 => 0
  | n + 1 =>
    if n + 1 < MAX_SUBDIVISION ∧ cubic_is_simple curve then 0
    else
      let roots := cubic_curvature_points curve
      if n + 1 = MAX_SUBDIVISION ∧ roots ≠ [] then
        let ts := sortR (0 :: 1 :: roots)
        1 + (pairs ts).foldr
          (fun pr m => max (subdivDepth (curveSegment curve pr.1 pr.2) n) m) 0
      else
        1 + max (subdivDepth (curveSplit curve (1 / 2)).1 n)
            (subdivDepth (curveSplit curve (1 / 2)).2 n)

/-- The nesting depth of the recursive calls of
    subdivide_and_add_conic below a call at the given level. -/
def conicSubdivDepth (curve : Curve) : Nat → Nat
  | 0 => 0
  | n + 1 =>
    if n + 1 < MAX_SUBDIVISION ∧ conic_is_simple curve then 0
    else
      1 + max (conicSubdivDepth (curveSplit curve (1 / 2)).1 n)
          (conicSubdivDepth (curveSplit curve (1 / 2)).2 n)

/-- cap_and_connect_contours from gskpathstroke.c: build the single
    closed outline of an open contour from the right contour, a cap,
    the reversed left contour and the start cap, and deposit it. -/
def cap_and_connect_contours (s : StrokeData) : StrokeData :=
  let r0p := curveStart s.r0
  let l0p := curveStart s.l0
  let s1 :=
    if s.hasCurrentCurve then
      { s with
        right := s.right ++ curveToOps s.r,
        left := s.left ++ curveToOps s.l }
    else
      { s with right := s.right ++ [Op.move r0p] }
  let r1 := if s.hasCurrentCurve then curveEnd s.r else r0p
  let l1 := if s.hasCurrentCurve then curveEnd s.l else l0p
  let s2 := { s1 with right := s1.right ++ add_line_cap s.stroke r1 l1 }
  let s3 :=
    if s.hasCurrentCurve then
      let withRev := path_builder_add_reverse_path s2.right s2.left
      if s.isFirstCurve then { s2 with right := withRev }
      else { s2 with right := withRev ++ curveToOps (curveReverse s.l0) }
    else s2
  let s4 := { s3 with right := s3.right ++ add_line_cap s.stroke l0p r0p }
  let s5 :=
    if s.hasCurrentCurve ∧ ¬ s.isFirstCurve then
      { s4 with right := s4.right ++ curveToOps s.r0 }
    else s4
  { s5 with
    builder := s5.builder ++ [s5.right ++ [Op.close]],
    left := [], right := [] }

/-- close_contours from gskpathstroke.c: add the wrap-around join and
    the first segment, close both contours and deposit them. -/
def close_contours (ix : Intersector) (s : StrokeData) : StrokeData :=
  let s1 :=
    if s.hasCurrentCurve then
      let sa := add_segments ix s s.c0 s.r0 s.l0
      { sa with
        right := sa.right ++ curveToOps sa.r,
        left := sa.left ++ curveToOps sa.l }
    else s
  { s1 with
    builder := s1.builder ++ [s1.right ++ [Op.close], s1.left ++ [Op.close]],
    left := [], right := [] }

/-- Modelled from the spec: graphene_point_near, whether two points are
    within epsilon of each other. -/
def pointNear (a b : Point) (eps : ℝ) : Prop :=
  (a.1 - b.1) ^ 2 + (a.2 - b.2) ^ 2 < eps ^ 2

instance (a b : Point) (eps : ℝ) : Decidable (pointNear a b eps) := by
  unfold pointNear
  infer_instance

/-- An event of the input segment stream, as delivered by the contour
    walker to stroke_op. -/
inductive Event : Type
  | move (p : Point)
  | line (p0 p1 : Point)
  | curve (p0 p1 p2 p3 : Point)
  | conic (p0 p1 : Point) (w : ℝ) (p2 : Point)
  | close (last start : Point)

/-- Whether an event is a segment (line, curve or conic). -/
def Event.isSeg : Event → Bool
  | .line _ _ => true
  | .curve _ _ _ _ => true
  | .conic _ _ _ _ => true
  | _ => false

/-- stroke_op from gskpathstroke.c: the per-event dispatcher. -/
def stroke_op (ix : Intersector) (s : StrokeData) (e : Event) : StrokeData :=
  match e with
  | .move p =>
    let s1 := if s.hasCurrentPoint then cap_and_connect_contours s else s
    let synth : Curve := .line p (p.1 + 1, p.2)
    { s1 with
      r0 := curveOffset synth (s.stroke.lineWidth / 2),
      l0 := curveOffset synth (- (s.stroke.lineWidth / 2)),
      right := [], left := [],
      hasCurrentPoint := true, hasCurrentCurve := false }
  | .close lastp startp =>
    let s1 :=
      if s.hasCurrentPoint then
        let s2 :=
          if pointNear lastp startp (1 / 1000) then s
          else add_curve ix s (.line lastp startp)
        close_contours ix s2
      else s
    { s1 with hasCurrentPoint := false, hasCurrentCurve := false }
  | .line p0 p1 => add_curve ix s (.line p0 p1)
  | .curve p0 p1 p2 p3 =>
      subdivide_and_add_curve ix s (.cubic p0 p1 p2 p3) MAX_SUBDIVISION
  | .conic p0 p1 w p2 =>
      subdivide_and_add_conic ix s (.conic p0 p1 w p2) MAX_SUBDIVISION

/-- gsk_contour_default_add_stroke from gskpathstroke.c, for the
    undashed case: iterate the event stream, then finalize a pending
    open contour whenever has_current_point is still set. -/
def add_stroke (ix : Intersector) (params : StrokeParams)
    (events : List Event) : StrokeData :=
  let s := events.foldl (stroke_op ix) (initStroke params)
  if s.hasCurrentPoint then cap_and_connect_contours s else s

/-- Modelled from the spec: a concrete instance of the external curve
    intersector, exact for pairs of line segments (both parameters must
    lie in [0, 1]); pairs involving curved segments report no hit. -/
def ixLine : Intersector
  | .line a b, .line c d =>
    let u : Point := (b.1 - a.1, b.2 - a.2)
    let v : Point := (d.1 - c.1, d.2 - c.2)
    let det := u.1 * v.2 - u.2 * v.1
    if det = 0 then none
    else
      let t := ((c.1 - a.1) * v.2 - (c.2 - a.2) * v.1) / det
      let sp := ((c.1 - a.1) * u.2 - (c.2 - a.2) * u.1) / det
      if 0 ≤ t ∧ t ≤ 1 ∧ 0 ≤ sp ∧ sp ≤ 1 then
        some (t, sp, (a.1 + t * u.1, a.2 + t * u.2))
      else none
  | _, _ => none

/-- Stroke parameters used by the concrete scenarios: width 2, miter
    joins with limit 4, butt caps. -/
def exParams : StrokeParams where
  lineWidth := 2
  lineJoin := LineJoin.miter
  miterLimit := 4
  lineCap := LineCap.butt

/-- The event stream of scenario S1: an open one-segment contour. -/
def ev5 : List Event := [Event.move (0, 0), Event.line (0, 0) (10, 0)]

/-- The expected S1 output: the closed rectangle through (0, 1),
    (10, 1), (10, -1), (0, -1). -/
def rect5 : Path :=
  [Op.move (0, 1), Op.lineTo (10, 1), Op.lineTo (10, -1),
   Op.lineTo (0, -1), Op.lineTo (0, 1), Op.close]

/-- The orchestrator state right after the move of the concrete trace. -/
def exS0 : StrokeData := stroke_op ixLine (initStroke exParams) (.move (0, 0))

/-- The state after the first segment of the concrete trace. -/
def exS1 : StrokeData := stroke_op ixLine exS0 (.line (0, 0) (10, 0))

/-- The second segment of the concrete trace: a 90 degree turn with
    positive turn angle. -/
def exC2 : Curve := .line (10, 0) (10, 10)

/-- The right offset of exC2 at distance +1. -/
def exR2 : Curve := .line (9, 0) (9, 10)

/-- The left offset of exC2 at distance -1. -/
def exL2 : Curve := .line (11, 0) (11, 10)

/-- The state after the second segment of the concrete trace. -/
def exS2 : StrokeData := stroke_op ixLine exS1 (.line (10, 0) (10, 10))

/-- The explicit value of exS0. -/
def exState0 : StrokeData where
  builder := []
  stroke := exParams
  left := []
  right := []
  hasCurrentPoint := true
  hasCurrentCurve := false
  isFirstCurve := false
  c := zeroCurve
  l := zeroCurve
  r := zeroCurve
  c0 := zeroCurve
  l0 := .line (0, -1) (1, -1)
  r0 := .line (0, 1) (1, 1)

/-- The explicit value of exS1. -/
def exState1 : StrokeData where
  builder := []
  stroke := exParams
  left := [Op.move (0, -1)]
  right := [Op.move (0, 1)]
  hasCurrentPoint := true
  hasCurrentCurve := true
  isFirstCurve := true
  c := .line (0, 0) (10, 0)
  l := .line (0, -1) (10, -1)
  r := .line (0, 1) (10, 1)
  c0 := .line (0, 0) (10, 0)
  l0 := .line (0, -1) (10, -1)
  r0 := .line (0, 1) (10, 1)

/-- The explicit value of exS2: the right offsets were intersected and
    trimmed, the miter join went to the left builder. -/
def exState2 : StrokeData where
  builder := []
  stroke := exParams
  left := [Op.move (0, -1), Op.move (10, -1), Op.lineTo (11, -1), Op.lineTo (11, 0)]
  right := [Op.move (0, 1), Op.move (9, 1)]
  hasCurrentPoint := true
  hasCurrentCurve := true
  isFirstCurve := false
  c := .line (10, 0) (10, 10)
  l := .line (11, 0) (11, 10)
  r := .line (9, 1) (9, 10)
  c0 := .line (0, 0) (10, 0)
  l0 := .line (0, -1) (10, -1)
  r0 := .line (0, 1) (9, 1)

/-- A degenerate constant cubic, the C6 counterexample input: it is
    never simple and splits into itself. -/
def cst : Curve := .cubic (0, 0) (0, 0) (0, 0) (0, 0)

theorem atan2_one_zero : atan2 1 0 = Real.pi / 2 := by
  unfold atan2
  rw [show (⟨0, 1⟩ : ℂ) = Complex.I by simp [Complex.ext_iff]]
  exact Complex.arg_I

theorem atan2_neg_one_zero : atan2 (-1) 0 = - (Real.pi / 2) := by
  unfold atan2
  rw [show (⟨0, -1⟩ : ℂ) = - Complex.I by simp [Complex.ext_iff]]
  exact Complex.arg_neg_I

theorem atan2_zero_one : atan2 0 1 = 0 := by
  unfold atan2
  rw [show (⟨1, 0⟩ : ℂ) = 1 by simp [Complex.ext_iff]]
  exact Complex.arg_one

theorem atan2_zero_zero : atan2 0 0 = 0 := by
  unfold atan2
  rw [show (⟨0, 0⟩ : ℂ) = 0 by simp [Complex.ext_iff]]
  exact Complex.arg_zero

/-- C8.  Counterexample: for the unit tangents (0, 1) and (0, -1) the
    atan2 difference is exactly -pi and the two wrap-around corrections
    both leave it unchanged, so the normalized angle is -pi, which lies
    outside the half-open interval (-pi, pi] the claim asserts. -/
theorem C8_counterexample :
    angle_between (0, 1) (0, -1) = - Real.pi ∧
    - Real.pi ∉ Set.Ioc (- Real.pi) Real.pi := by
  have hpi := Real.pi_pos
  constructor
  · unfold angle_between
    simp only [atan2_one_zero, atan2_neg_one_zero]
    rw [show - (Real.pi / 2) - Real.pi / 2 = - Real.pi by ring]
    rw [if_neg (show ¬ (- Real.pi > Real.pi) by linarith)]
    rw [if_neg (lt_irrefl (- Real.pi))]
  · simp [Set.mem_Ioc]

/-- C8 amended: for all tangent vectors the normalized atan2 difference
    of angle_between lies in the closed interval [-pi, pi] (the bound
    -pi is attained, so the interval cannot be left-open). -/
theorem C8_theorem (t1 t2 : Point) :
    angle_between t1 t2 ∈ Set.Icc (- Real.pi) Real.pi := by
  have hpi := Real.pi_pos
  have h1 := Complex.arg_mem_Ioc ⟨t1.1, t1.2⟩
  have h2 := Complex.arg_mem_Ioc ⟨t2.1, t2.2⟩
  rw [Set.mem_Ioc] at h1 h2
  unfold angle_between atan2
  dsimp only
  rw [Set.mem_Icc]
  constructor <;> split_ifs <;> linarith [h1.1, h1.2, h2.1, h2.2]

/-- C2.  At a miter join whose two offset rays intersect at p, the
    sharp miter a, p, b is emitted exactly when 1/|sin((pi-angle)/2)|
    is at most the miter limit (sharp at exact equality); otherwise the
    single bevel line to b is emitted. -/
theorem C2_theorem (stroke : StrokeParams) (c a ta b tb : Point)
    (angle : ℝ) (p : Point) (hj : stroke.lineJoin = LineJoin.miter)
    (hp : line_intersect a ta b tb = some p) :
    (add_line_join stroke c a ta b tb angle = [Op.lineTo p, Op.lineTo b] ↔
      1 / |Real.sin ((Real.pi - angle) / 2)| ≤ stroke.miterLimit) ∧
    (¬ 1 / |Real.sin ((Real.pi - angle) / 2)| ≤ stroke.miterLimit →
      add_line_join stroke c a ta b tb angle = [Op.lineTo b]) := by
  simp only [add_line_join, hj, hp]
  split_ifs with h h2
  · exact ⟨⟨fun _ => h, fun _ => rfl⟩, fun hc => absurd h hc⟩
  · exact h2.elim
  · exact ⟨⟨fun he => absurd (congrArg List.length he) (by simp),
      fun hc => absurd hc h⟩, fun _ => rfl⟩

theorem line_intersect_ex :
    line_intersect (0, 0) (1, 0) (1, 1) (0, 1) = some (1, 0) := by
  unfold line_intersect
  norm_num

/-- C2 witness: a concrete right-angle miter with limit 4, whose offset
    rays meet at (1, 0). -/
theorem C2_witness :
    line_intersect (0, 0) (1, 0) (1, 1) (0, 1) = some (1, 0) ∧
    exParams.lineJoin = LineJoin.miter ∧
    ((add_line_join exParams (0, 0) (0, 0) (1, 0) (1, 1) (0, 1) (Real.pi / 2) =
        [Op.lineTo (1, 0), Op.lineTo (1, 1)] ↔
      1 / |Real.sin ((Real.pi - Real.pi / 2) / 2)| ≤ exParams.miterLimit) ∧
    (¬ 1 / |Real.sin ((Real.pi - Real.pi / 2) / 2)| ≤ exParams.miterLimit →
      add_line_join exParams (0, 0) (0, 0) (1, 0) (1, 1) (0, 1) (Real.pi / 2) =
        [Op.lineTo (1, 1)])) :=
  ⟨line_intersect_ex, rfl,
    C2_theorem exParams (0, 0) (0, 0) (1, 0) (1, 1) (0, 1) (Real.pi / 2) (1, 0)
      rfl line_intersect_ex⟩

theorem foldr_max_le {α : Type} (f : α → Nat) (n : Nat) :
    ∀ L : List α, (∀ x ∈ L, f x ≤ n) →
      L.foldr (fun x m => max (f x) m) 0 ≤ n := by
  intro L
  induction L with
  | nil => simp
  | cons hd tl ih =>
    intro h
    simp only [List.foldr]
    exact max_le (h hd (by simp)) (ih fun x hx => h x (by simp [hx]))

theorem subdivDepth_le (n : Nat) : ∀ c : Curve, subdivDepth c n ≤ n := by
  induction n with
  | zero => intro c; simp [subdivDepth]
  | succ n ih =>
    intro c
    unfold subdivDepth
    dsimp only
    split_ifs with h1 h2
    · exact Nat.zero_le _
    · have hb : List.foldr
          (fun pr m => subdivDepth (curveSegment c pr.1 pr.2) n ⊔ m) 0
          (pairs (sortR (0 :: 1 :: cubic_curvature_points c))) ≤ n :=
        foldr_max_le (fun pr : ℝ × ℝ => subdivDepth (curveSegment c pr.1 pr.2) n)
          n (pairs (sortR (0 :: 1 :: cubic_curvature_points c))) (fun pr _ => ih _)
      omega
    · have hb : max (subdivDepth (curveSplit c (1 / 2)).1 n)
          (subdivDepth (curveSplit c (1 / 2)).2 n) ≤ n :=
        max_le (ih _) (ih _)
      omega

theorem conicSubdivDepth_le (n : Nat) : ∀ c : Curve, conicSubdivDepth c n ≤ n := by
  induction n with
  | zero => intro c; simp [conicSubdivDepth]
  | succ n ih =>
    intro c
    unfold conicSubdivDepth
    split_ifs with h1
    · exact Nat.zero_le _
    · have hb : max (conicSubdivDepth (curveSplit c (1 / 2)).1 n)
          (conicSubdivDepth (curveSplit c (1 / 2)).2 n) ≤ n :=
        max_le (ih _) (ih _)
      omega

/-- C9.  Every recursive call of subdivide_and_add_curve and of
    subdivide_and_add_conic is made at level - 1 (so the recursion
    nesting depth, measured by subdivDepth and conicSubdivDepth, is
    bounded by the starting level, hence by 8 = MAX_SUBDIVISION) and
    level 0 accepts the curve unconditionally: the list of pieces
    passed to add_curve at level 0 is the curve itself. -/
theorem C9_theorem (c : Curve) (level : Nat) (h : level ≤ 8) :
    subdivDepth c level ≤ 8 ∧ conicSubdivDepth c level ≤ 8 ∧
    subPieces c 0 = [c] ∧ subPiecesLv c 0 = [(c, 0)] := by
  exact ⟨le_trans (subdivDepth_le level c) h,
    le_trans (conicSubdivDepth_le level c) h, rfl, rfl⟩

/-- C9 witness at a concrete curve and the full depth budget 8. -/
theorem C9_witness :
    8 ≤ 8 ∧
    (subdivDepth zeroCurve 8 ≤ 8 ∧ conicSubdivDepth zeroCurve 8 ≤ 8 ∧
      subPieces zeroCurve 0 = [zeroCurve] ∧
      subPiecesLv zeroCurve 0 = [(zeroCurve, 0)]) :=
  ⟨by decide, C9_theorem zeroCurve 8 (by decide)⟩

theorem vnormalize_zero : vnormalize (0, 0) = ((0 : ℝ), (0 : ℝ)) := by
  unfold vnormalize
  norm_num

theorem angle_between_zero : angle_between (0, 0) (0, 0) = 0 := by
  have hpi := Real.pi_pos
  unfold angle_between
  simp only [atan2_zero_zero]
  split_ifs <;> linarith

theorem cst_not_simple : cubic_is_simple cst = false := by
  have hpi := Real.pi_pos
  unfold cubic_is_simple cst
  simp only [get_tangent, get_normal, sub_self, vnormalize_zero,
    angle_between_zero, vdot]
  rw [if_neg (by simp)]
  have harc : |Real.arccos ((0 : ℝ) * 0 + 0 * 0)| ≥ Real.pi / 3 := by
    rw [show (0 : ℝ) * 0 + 0 * 0 = 0 by ring, Real.arccos_zero,
      abs_of_pos (by linarith)]
    linarith
  rw [if_pos harc]

theorem cst_split : curveSplit cst (1 / 2) = (cst, cst) := by
  unfold curveSplit cst lerp
  norm_num

theorem cst_curvature : cubic_curvature_points cst = [] := by
  unfold cubic_curvature_points cst
  simp only [get_tangent]
  norm_num [vnormalize_zero, atan2_zero_zero, alignPoint]

theorem subPieces_cst (n : Nat) : subPieces cst n = List.replicate (2 ^ n) cst := by
  induction n with
  | zero => simp [subPieces]
  | succ n ih =>
    unfold subPieces
    rw [if_neg (by simp [cst_not_simple])]
    dsimp only
    rw [if_neg (by simp [cst_curvature])]
    rw [cst_split]
    rw [ih]
    rw [show 2 ^ (n + 1) = 2 ^ n + 2 ^ n by ring]
    rw [List.replicate_add]

theorem subPiecesLv_cst (n : Nat) :
    subPiecesLv cst n = List.replicate (2 ^ n) (cst, 0) := by
  induction n with
  | zero => simp [subPiecesLv]
  | succ n ih =>
    unfold subPiecesLv
    rw [if_neg (by simp [cst_not_simple])]
    dsimp only
    rw [if_neg (by simp [cst_curvature])]
    rw [cst_split]
    rw [ih]
    rw [show 2 ^ (n + 1) = 2 ^ n + 2 ^ n by ring]
    rw [List.replicate_add]

/-- C6 counterexample: the constant cubic cst is passed on to add_curve
    by the subdivider at depth budget 8 (it is among the accepted
    pieces), yet it does not satisfy the simple predicate: its endpoint
    normals are degenerate and their arccos-angle is pi/2, not below
    pi/3.  The depth budget runs out at level 0 and the piece is
    accepted unconditionally. -/
theorem C6_counterexample :
    cst ∈ subPieces cst MAX_SUBDIVISION ∧ cubic_is_simple cst = false := by
  constructor
  · rw [show MAX_SUBDIVISION = 8 from rfl, subPieces_cst]
    rw [List.mem_replicate]
    exact ⟨pow_ne_zero 8 (by norm_num), rfl⟩
  · exact cst_not_simple

theorem subdivide_eq_pieces (ix : Intersector) :
    ∀ (n : Nat) (c : Curve) (s : StrokeData),
      subdivide_and_add_curve ix s c n = (subPieces c n).foldl (add_curve ix) s := by
  intro n
  induction n with
  | zero => intro c s; rfl
  | succ n ih =>
    intro c s
    unfold subdivide_and_add_curve subPieces
    dsimp only
    split_ifs with h1 h2
    · rfl
    · have aux : ∀ (L : List (ℝ × ℝ)) (st : StrokeData),
          L.foldl (fun st2 pr =>
            subdivide_and_add_curve ix st2 (curveSegment c pr.1 pr.2) n) st =
            (L.flatMap fun pr =>
              subPieces (curveSegment c pr.1 pr.2) n).foldl (add_curve ix) st := by
        intro L
        induction L with
        | nil => intro st; rfl
        | cons hd tl ihL =>
          intro st
          simp only [List.foldl, List.flatMap_cons, List.foldl_append]
          rw [ih, ihL]
      exact aux _ s
    · rw [ih, ih, List.foldl_append]

theorem subPieces_eq_map :
    ∀ (n : Nat) (c : Curve), subPieces c n = (subPiecesLv c n).map Prod.fst := by
  intro n
  induction n with
  | zero => intro c; rfl
  | succ n ih =>
    intro c
    unfold subPieces subPiecesLv
    dsimp only
    split_ifs with h1 h2
    · rfl
    · rw [List.map_flatMap]
      congr 1
      funext pr
      exact ih _
    · rw [List.map_append, ih, ih]

theorem subPiecesLv_accept (n : Nat) :
    ∀ (c q : Curve) (lv : Nat), (q, lv) ∈ subPiecesLv c n →
      lv = 0 ∨ cubic_is_simple q = true := by
  induction n with
  | zero =>
    intro c q lv h
    simp only [subPiecesLv, List.mem_singleton, Prod.mk.injEq] at h
    exact Or.inl h.2
  | succ n ih =>
    intro c q lv h
    unfold subPiecesLv at h
    split_ifs at h with h1
    · simp only [List.mem_singleton, Prod.mk.injEq] at h
      exact Or.inr (h.1 ▸ h1.2)
    · dsimp only at h
      split_ifs at h with h2
      · rw [List.mem_flatMap] at h
        obtain ⟨pr, _, hm⟩ := h
        exact ih _ q lv hm
      · rw [List.mem_append] at h
        rcases h with h | h
        · exact ih _ q lv h
        · exact ih _ q lv h

/-- C6 amended: every piece the depth-8 subdivider passes to add_curve
    either satisfies the simple predicate or was accepted at depth
    budget 0, after the eight subdivision levels were exhausted (the
    level-0 escape is forced by the counterexample above). -/
theorem C6_theorem (c q : Curve) (lv : Nat)
    (h : (q, lv) ∈ subPiecesLv c MAX_SUBDIVISION) :
    lv = 0 ∨ cubic_is_simple q = true :=
  subPiecesLv_accept MAX_SUBDIVISION c q lv h

/-- C6 witness: the constant cubic is accepted at level 0. -/
theorem C6_witness :
    (cst, 0) ∈ subPiecesLv cst MAX_SUBDIVISION ∧
    (0 = 0 ∨ cubic_is_simple cst = true) := by
  have hm : (cst, 0) ∈ subPiecesLv cst MAX_SUBDIVISION := by
    rw [show MAX_SUBDIVISION = 8 from rfl, subPiecesLv_cst]
    rw [List.mem_replicate]
    exact ⟨pow_ne_zero 8 (by norm_num), rfl⟩
  exact ⟨hm, C6_theorem cst cst 0 hm⟩

theorem foldl_cons_rev {α β : Type} (f : α → β) :
    ∀ (l : List α) (acc : List β),
      l.foldl (fun a c => f c :: a) acc = (l.map f).reverse ++ acc := by
  intro l
  induction l with
  | nil => intro acc; rfl
  | cons hd tl ih =>
    intro acc
    simp only [List.foldl, List.map, List.reverse_cons, List.append_assoc]
    rw [ih]
    simp

theorem foldl_append_join {α : Type} (g : α → List Op) :
    ∀ (l : List α) (b : List Op),
      l.foldl (fun bb c => bb ++ g c) b = b ++ (l.map g).flatten := by
  intro l
  induction l with
  | nil => intro b; simp
  | cons hd tl ih =>
    intro b
    simp only [List.foldl, List.map, List.flatten]
    rw [ih]
    simp

theorem curveStart_reverse (c : Curve) : curveStart (curveReverse c) = curveEnd c := by
  cases c <;> rfl

theorem curveEnd_reverse (c : Curve) : curveEnd (curveReverse c) = curveStart c := by
  cases c <;> rfl

theorem getLast?_map {α β : Type} (f : α → β) :
    ∀ l : List α, (l.map f).getLast? = l.getLast?.map f := by
  intro l
  induction l with
  | nil => rfl
  | cons hd tl ih =>
    cases tl with
    | nil => rfl
    | cons h2 t2 => simpa using ih

theorem head?_map {α β : Type} (f : α → β) (l : List α) :
    (l.map f).head? = l.head?.map f := by
  cases l <;> rfl

/-- C10.  path_builder_add_reverse_path appends exactly the non-move
    segments of the path (pathSegments skips moves), in reverse order
    and each individually reversed; consequently the head of the
    appended curve sequence starts at the end point of the last
    original segment and its last curve ends at the start point of the
    first original segment, so the appended geometry traverses the path
    from its end back to its start. -/
theorem C10_theorem (b p : Path) :
    path_builder_add_reverse_path b p =
      b ++ (((pathSegments p).map curveReverse).reverse.map curveToOps).flatten ∧
    (((pathSegments p).map curveReverse).reverse.head?).map curveStart =
      ((pathSegments p).getLast?).map curveEnd ∧
    (((pathSegments p).map curveReverse).reverse.getLast?).map curveEnd =
      ((pathSegments p).head?).map curveStart := by
  refine ⟨?_, ?_, ?_⟩
  · unfold path_builder_add_reverse_path
    rw [foldl_cons_rev curveReverse (pathSegments p) []]
    rw [List.append_nil]
    rw [foldl_append_join curveToOps]
  · rw [List.head?_reverse, getLast?_map]
    cases (pathSegments p).getLast? <;> simp [curveStart_reverse]
  · rw [List.getLast?_reverse, head?_map]
    cases (pathSegments p).head? <;> simp [curveEnd_reverse]

theorem add_segments_pres (ix : Intersector) (s : StrokeData) (curve r l : Curve) :
    (add_segments ix s curve r l).builder = s.builder ∧
    (add_segments ix s curve r l).hasCurrentPoint = s.hasCurrentPoint ∧
    (add_segments ix s curve r l).stroke = s.stroke := by
  unfold add_segments
  dsimp only
  cases hxr : ix s.r r <;> cases hxl : ix s.l l <;>
    unfold append_right append_left <;> split_ifs <;> exact ⟨rfl, rfl, rfl⟩

theorem add_curve_pres (ix : Intersector) (s : StrokeData) (curve : Curve) :
    (add_curve ix s curve).builder = s.builder ∧
    (add_curve ix s curve).hasCurrentPoint = s.hasCurrentPoint ∧
    (add_curve ix s curve).stroke = s.stroke := by
  unfold add_curve
  dsimp only
  split_ifs with h
  · exact add_segments_pres ix s curve _ _
  · exact ⟨rfl, rfl, rfl⟩

theorem subdiv_pres (ix : Intersector) :
    ∀ (n : Nat) (c : Curve) (s : StrokeData),
      (subdivide_and_add_curve ix s c n).builder = s.builder ∧
      (subdivide_and_add_curve ix s c n).hasCurrentPoint = s.hasCurrentPoint ∧
      (subdivide_and_add_curve ix s c n).stroke = s.stroke := by
  intro n
  induction n with
  | zero =>
    intro c s
    exact add_curve_pres ix s c
  | succ n ih =>
    intro c s
    unfold subdivide_and_add_curve
    dsimp only
    split_ifs with h1 h2
    · exact add_curve_pres ix s c
    · have aux : ∀ (L : List (ℝ × ℝ)) (st : StrokeData),
          ((L.foldl (fun st2 pr =>
            subdivide_and_add_curve ix st2 (curveSegment c pr.1 pr.2) n) st).builder
              = st.builder ∧
            (L.foldl (fun st2 pr =>
              subdivide_and_add_curve ix st2 (curveSegment c pr.1 pr.2) n) st).hasCurrentPoint
              = st.hasCurrentPoint ∧
            (L.foldl (fun st2 pr =>
              subdivide_and_add_curve ix st2 (curveSegment c pr.1 pr.2) n) st).stroke
              = st.stroke) := by
        intro L
        induction L with
        | nil => intro st; exact ⟨rfl, rfl, rfl⟩
        | cons hd tl ihL =>
          intro st
          simp only [List.foldl]
          have ha := ih (curveSegment c hd.1 hd.2) st
          have hb := ihL (subdivide_and_add_curve ix st (curveSegment c hd.1 hd.2) n)
          exact ⟨hb.1.trans ha.1, hb.2.1.trans ha.2.1, hb.2.2.trans ha.2.2⟩
      exact aux _ s
    · have ha := ih (curveSplit c (1 / 2)).1 s
      have hb := ih (curveSplit c (1 / 2)).2
        (subdivide_and_add_curve ix s (curveSplit c (1 / 2)).1 n)
      exact ⟨hb.1.trans ha.1, hb.2.1.trans ha.2.1, hb.2.2.trans ha.2.2⟩

theorem conic_subdiv_pres (ix : Intersector) :
    ∀ (n : Nat) (c : Curve) (s : StrokeData),
      (subdivide_and_add_conic ix s c n).builder = s.builder ∧
      (subdivide_and_add_conic ix s c n).hasCurrentPoint = s.hasCurrentPoint ∧
      (subdivide_and_add_conic ix s c n).stroke = s.stroke := by
  intro n
  induction n with
  | zero =>
    intro c s
    exact add_curve_pres ix s c
  | succ n ih =>
    intro c s
    unfold subdivide_and_add_conic
    split_ifs with h1
    · exact add_curve_pres ix s c
    · have ha := ih (curveSplit c (1 / 2)).1 s
      have hb := ih (curveSplit c (1 / 2)).2
        (subdivide_and_add_conic ix s (curveSplit c (1 / 2)).1 n)
      exact ⟨hb.1.trans ha.1, hb.2.1.trans ha.2.1, hb.2.2.trans ha.2.2⟩

theorem stroke_op_seg_pres (ix : Intersector) (s : StrokeData) (e : Event)
    (h : e.isSeg = true) :
    (stroke_op ix s e).builder = s.builder ∧
    (stroke_op ix s e).hasCurrentPoint = s.hasCurrentPoint ∧
    (stroke_op ix s e).stroke = s.stroke := by
  cases e with
  | move p => exact absurd h (by simp [Event.isSeg])
  | close a b => exact absurd h (by simp [Event.isSeg])
  | line p0 p1 => exact add_curve_pres ix s _
  | curve p0 p1 p2 p3 => exact subdiv_pres ix MAX_SUBDIVISION _ s
  | conic p0 p1 w p2 => exact conic_subdiv_pres ix MAX_SUBDIVISION _ s

theorem foldl_seg_pres (ix : Intersector) :
    ∀ (mids : List Event), (∀ e ∈ mids, e.isSeg = true) →
      ∀ s : StrokeData,
        (mids.foldl (stroke_op ix) s).builder = s.builder ∧
        (mids.foldl (stroke_op ix) s).hasCurrentPoint = s.hasCurrentPoint ∧
        (mids.foldl (stroke_op ix) s).stroke = s.stroke := by
  intro mids
  induction mids with
  | nil => intro _ s; exact ⟨rfl, rfl, rfl⟩
  | cons hd tl ih =>
    intro h s
    simp only [List.foldl]
    have ha := stroke_op_seg_pres ix s hd (h hd (by simp))
    have hb := ih (fun e he => h e (by simp [he])) (stroke_op ix s hd)
    exact ⟨hb.1.trans ha.1, hb.2.1.trans ha.2.1, hb.2.2.trans ha.2.2⟩

theorem move_init_props (ix : Intersector) (params : StrokeParams) (p : Point) :
    (stroke_op ix (initStroke params) (.move p)).builder = [] ∧
    (stroke_op ix (initStroke params) (.move p)).hasCurrentPoint = true ∧
    (stroke_op ix (initStroke params) (.move p)).stroke = params :=
  ⟨rfl, rfl, rfl⟩

theorem close_contours_builder (ix : Intersector) (s : StrokeData) :
    ∃ A B, (close_contours ix s).builder =
      s.builder ++ [A ++ [Op.close], B ++ [Op.close]] := by
  unfold close_contours
  dsimp only
  split_ifs with h
  · have hp := add_segments_pres ix s s.c0 s.r0 s.l0
    refine ⟨(add_segments ix s s.c0 s.r0 s.l0).right ++
        curveToOps (add_segments ix s s.c0 s.r0 s.l0).r,
      (add_segments ix s s.c0 s.r0 s.l0).left ++
        curveToOps (add_segments ix s s.c0 s.r0 s.l0).l, ?_⟩
    rw [show ({ add_segments ix s s.c0 s.r0 s.l0 with
        right := (add_segments ix s s.c0 s.r0 s.l0).right ++
          curveToOps (add_segments ix s s.c0 s.r0 s.l0).r,
        left := (add_segments ix s s.c0 s.r0 s.l0).left ++
          curveToOps (add_segments ix s s.c0 s.r0 s.l0).l } : StrokeData).builder =
      (add_segments ix s s.c0 s.r0 s.l0).builder from rfl]
    rw [hp.1]
  · exact ⟨s.right, s.left, rfl⟩

theorem cap_and_connect_builder (s : StrokeData) :
    ∃ A, (cap_and_connect_contours s).builder = s.builder ++ [A ++ [Op.close]] := by
  unfold cap_and_connect_contours
  dsimp only
  split_ifs <;> exact ⟨_, rfl⟩

theorem stroke_op_close_props (ix : Intersector) (s : StrokeData) (a b : Point)
    (hp : s.hasCurrentPoint = true) :
    (∃ A B, (stroke_op ix s (.close a b)).builder =
      s.builder ++ [A ++ [Op.close], B ++ [Op.close]]) ∧
    (stroke_op ix s (.close a b)).hasCurrentPoint = false := by
  unfold stroke_op
  dsimp only
  rw [hp]
  rw [if_pos rfl]
  refine ⟨?_, rfl⟩
  split_ifs with hnear
  · obtain ⟨A, B, hAB⟩ := close_contours_builder ix s
    exact ⟨A, B, hAB⟩
  · obtain ⟨A, B, hAB⟩ := close_contours_builder ix (add_curve ix s (.line a b))
    refine ⟨A, B, ?_⟩
    rw [hAB, (add_curve_pres ix s (.line a b)).1]

/-- C3.  For a contour whose event sequence is a move, then segments,
    then a terminating close (so a current point is established when
    the close arrives), exactly two sub-paths are deposited into the
    output builder, and both end with a close operation. -/
theorem C3_theorem (ix : Intersector) (params : StrokeParams) (p a b : Point)
    (mids : List Event) (h : ∀ e ∈ mids, e.isSeg = true) :
    (add_stroke ix params
      (Event.move p :: (mids ++ [Event.close a b]))).builder.length = 2 ∧
    ∀ q ∈ (add_stroke ix params
      (Event.move p :: (mids ++ [Event.close a b]))).builder,
      q.getLast? = some Op.close := by
  unfold add_stroke
  dsimp only
  rw [List.foldl_cons, List.foldl_append]
  have h1 := move_init_props ix params p
  have hm := foldl_seg_pres ix mids h (stroke_op ix (initStroke params) (.move p))
  set sm := mids.foldl (stroke_op ix) (stroke_op ix (initStroke params) (.move p))
    with hsm
  have hmp : sm.hasCurrentPoint = true := hm.2.1.trans h1.2.1
  have hmb : sm.builder = [] := hm.1.trans h1.1
  have hc := stroke_op_close_props ix sm a b hmp
  obtain ⟨⟨A, B, hAB⟩, hcp⟩ := hc
  simp only [List.foldl]
  rw [if_neg (by rw [hcp]; exact Bool.false_ne_true)]
  rw [hAB, hmb]
  constructor
  · rfl
  · intro q hq
    simp only [List.nil_append, List.mem_cons, List.mem_singleton] at hq
    rcases hq with hq | hq | hq
    · rw [hq, List.getLast?_concat]
    · rw [hq, List.getLast?_concat]
    · exact absurd hq (by simp)

/-- C3 witness: a concrete two-segment closed contour. -/
theorem C3_witness :
    (∀ e ∈ [Event.line (0, 0) (1, 0)], e.isSeg = true) ∧
    ((add_stroke ixLine exParams
      (Event.move (0, 0) ::
        ([Event.line (0, 0) (1, 0)] ++ [Event.close (1, 0) (0, 0)]))).builder.length = 2 ∧
    ∀ q ∈ (add_stroke ixLine exParams
      (Event.move (0, 0) ::
        ([Event.line (0, 0) (1, 0)] ++ [Event.close (1, 0) (0, 0)]))).builder,
      q.getLast? = some Op.close) := by
  have hseg : ∀ e ∈ [Event.line ((0 : ℝ), (0 : ℝ)) (1, 0)], e.isSeg = true := by
    intro e he
    rw [List.mem_singleton] at he
    rw [he]
    rfl
  exact ⟨hseg, C3_theorem ixLine exParams (0, 0) (1, 0) (0, 0)
    [Event.line (0, 0) (1, 0)] hseg⟩

/-- C4.  For an open contour (a move followed by segments, with no
    close), the driver finds has_current_point still set after the
    iteration and calls cap_and_connect_contours, so exactly one
    sub-path is deposited into the output builder, and it ends with a
    close operation; the edge case with no segment after the move is
    the mids = [] instance. -/
theorem C4_theorem (ix : Intersector) (params : StrokeParams) (p : Point)
    (mids : List Event) (h : ∀ e ∈ mids, e.isSeg = true) :
    (add_stroke ix params (Event.move p :: mids)).builder.length = 1 ∧
    ∀ q ∈ (add_stroke ix params (Event.move p :: mids)).builder,
      q.getLast? = some Op.close := by
  unfold add_stroke
  dsimp only
  rw [List.foldl_cons]
  have h1 := move_init_props ix params p
  have hm := foldl_seg_pres ix mids h (stroke_op ix (initStroke params) (.move p))
  set sm := mids.foldl (stroke_op ix) (stroke_op ix (initStroke params) (.move p))
    with hsm
  have hmp : sm.hasCurrentPoint = true := hm.2.1.trans h1.2.1
  have hmb : sm.builder = [] := hm.1.trans h1.1
  rw [if_pos (by rw [hmp])]
  obtain ⟨A, hA⟩ := cap_and_connect_builder sm
  rw [hA, hmb]
  constructor
  · rfl
  · intro q hq
    simp only [List.nil_append, List.mem_singleton] at hq
    rw [hq, List.getLast?_concat]

/-- C4 witness: the edge case of a move with no following segment. -/
theorem C4_witness :
    (∀ e ∈ ([] : List Event), e.isSeg = true) ∧
    ((add_stroke ixLine exParams (Event.move (0, 0) :: [])).builder.length = 1 ∧
    ∀ q ∈ (add_stroke ixLine exParams (Event.move (0, 0) :: [])).builder,
      q.getLast? = some Op.close) :=
  ⟨by intro e he; exact absurd he (List.not_mem_nil e),
    C4_theorem ixLine exParams (0, 0) []
      (by intro e he; exact absurd he (List.not_mem_nil e))⟩

theorem sqrt_100 : Real.sqrt 100 = 10 := by
  rw [show (100 : ℝ) = 10 ^ 2 by norm_num]
  exact Real.sqrt_sq (by norm_num)

theorem vnormalize_0_1 : vnormalize (0, 1) = ((0 : ℝ), (1 : ℝ)) := by
  unfold vnormalize
  norm_num

theorem vnormalize_0_10 : vnormalize (0, 10) = ((0 : ℝ), (1 : ℝ)) := by
  unfold vnormalize
  norm_num [sqrt_100]

theorem vnormalize_10_0 : vnormalize (10, 0) = ((1 : ℝ), (0 : ℝ)) := by
  unfold vnormalize
  norm_num [sqrt_100]

theorem vnormalize_m10_0 : vnormalize (-10, 0) = ((-1 : ℝ), (0 : ℝ)) := by
  unfold vnormalize
  norm_num [sqrt_100]

theorem offset_synth (d : ℝ) :
    curveOffset (Curve.line (0, 0) (1, 0)) d = Curve.line (0, d) (1, d) := by
  unfold curveOffset get_normal ptrans
  norm_num [vnormalize_0_1]

theorem offset_h10 (d : ℝ) :
    curveOffset (Curve.line (0, 0) (10, 0)) d = Curve.line (0, d) (10, d) := by
  unfold curveOffset get_normal ptrans
  norm_num [vnormalize_0_10]

theorem offset_v_r : curveOffset (Curve.line (10, 0) (10, 10)) (2 / 2 : ℝ) =
    Curve.line (9, 0) (9, 10) := by
  unfold curveOffset get_normal ptrans
  norm_num [vnormalize_m10_0]

theorem offset_v_l : curveOffset (Curve.line (10, 0) (10, 10)) (- (2 / 2) : ℝ) =
    Curve.line (11, 0) (11, 10) := by
  unfold curveOffset get_normal ptrans
  norm_num [vnormalize_m10_0]

theorem tangent_h : curveEndTangent (Curve.line (0, 0) (10, 0)) = ((1 : ℝ), (0 : ℝ)) := by
  unfold curveEndTangent get_tangent
  norm_num [vnormalize_10_0]

theorem tangent_v : curveStartTangent (Curve.line (10, 0) (10, 10)) = ((0 : ℝ), (1 : ℝ)) := by
  unfold curveStartTangent get_tangent
  norm_num [vnormalize_0_10]

theorem angle_right_ex : angle_between (1, 0) (0, 1) = Real.pi / 2 := by
  have hpi := Real.pi_pos
  unfold angle_between
  simp only [atan2_one_zero, atan2_zero_one]
  rw [sub_zero]
  rw [if_neg (show ¬ Real.pi / 2 > Real.pi by linarith)]
  rw [if_neg (show ¬ Real.pi / 2 < - Real.pi by linarith)]

theorem ixLine_ex :
    ixLine (Curve.line (0, 1) (10, 1)) (Curve.line (9, 0) (9, 10)) =
      some (9 / 10, 1 / 10, ((9 : ℝ), (1 : ℝ))) := by
  unfold ixLine
  norm_num

theorem line_intersect_join :
    line_intersect (10, -1) (1, 0) (11, 0) (0, 1) = some (11, -1) := by
  unfold line_intersect
  norm_num

theorem miter_cond_ex : 1 / |Real.sin ((Real.pi - Real.pi / 2) / 2)| ≤ 4 := by
  rw [show (Real.pi - Real.pi / 2) / 2 = Real.pi / 4 by ring]
  rw [Real.sin_pi_div_four]
  have hs2 : (1 : ℝ) ≤ Real.sqrt 2 := by
    rw [show (1 : ℝ) = Real.sqrt 1 by rw [Real.sqrt_one]]
    exact Real.sqrt_le_sqrt (by norm_num)
  rw [abs_of_pos (by linarith)]
  rw [div_le_iff₀ (by linarith)]
  linarith

theorem exS0_eq : exS0 = exState0 := by
  unfold exS0 stroke_op
  dsimp only
  rw [if_neg (show ¬ (initStroke exParams).hasCurrentPoint = true by
    simp [initStroke])]
  rw [show (initStroke exParams).stroke.lineWidth = (2 : ℝ) from rfl]
  rw [show (0 : ℝ) + 1 = 1 by norm_num]
  rw [offset_synth, offset_synth]
  unfold initStroke exState0 exParams
  norm_num

theorem exS1_eq : exS1 = exState1 := by
  unfold exS1
  rw [exS0_eq]
  show add_curve ixLine exState0 (.line (0, 0) (10, 0)) = exState1
  unfold add_curve
  dsimp only
  rw [show exState0.stroke.lineWidth = (2 : ℝ) from rfl]
  rw [offset_h10, offset_h10]
  rw [if_neg (show ¬ exState0.hasCurrentCurve = true by simp [exState0])]
  unfold exState0 exState1 exParams
  norm_num [curveStart, zeroCurve]

theorem split_r_old :
    (curveSplit (Curve.line (0, 1) (10, 1)) (9 / 10)).1 = Curve.line (0, 1) (9, 1) := by
  unfold curveSplit lerp
  norm_num

theorem split_r_new :
    (curveSplit (Curve.line (9, 0) (9, 10)) (1 / 10)).2 = Curve.line (9, 1) (9, 10) := by
  unfold curveSplit lerp
  norm_num

theorem join_ex :
    add_line_join exParams (10, 0) (10, -1) (1, 0) (11, 0) (0, 1) (Real.pi / 2) =
      [Op.lineTo (11, -1), Op.lineTo (11, 0)] := by
  unfold add_line_join
  rw [show exParams.lineJoin = LineJoin.miter from rfl]
  rw [line_intersect_join]
  dsimp only
  rw [if_pos (show 1 / |Real.sin ((Real.pi - Real.pi / 2) / 2)| ≤ exParams.miterLimit by
    rw [show exParams.miterLimit = (4 : ℝ) from rfl]
    exact miter_cond_ex)]

theorem exS2_eq : exS2 = exState2 := by
  have hpi := Real.pi_pos
  unfold exS2
  rw [exS1_eq]
  show add_curve ixLine exState1 (.line (10, 0) (10, 10)) = exState2
  unfold add_curve
  dsimp only
  rw [show exState1.stroke.lineWidth = (2 : ℝ) from rfl]
  rw [offset_v_r, offset_v_l]
  rw [if_pos (show exState1.hasCurrentCurve = true from rfl)]
  unfold add_segments
  dsimp only
  rw [show exState1.c = Curve.line (0, 0) (10, 0) from rfl]
  rw [tangent_h, tangent_v, angle_right_ex]
  rw [if_neg (show ¬ |Real.pi / 2| < degToRad 5 by
    rw [abs_of_pos (by linarith)]
    unfold degToRad
    intro hcon
    linarith)]
  rw [if_pos (show (0 : ℝ) < Real.pi / 2 by linarith)]
  rw [show exState1.r = Curve.line (0, 1) (10, 1) from rfl]
  rw [ixLine_ex]
  dsimp only
  rw [split_r_old, split_r_new]
  unfold append_right append_left
  dsimp only
  rw [if_pos (show ({ exState1 with r := Curve.line (0, 1) (9, 1) } :
    StrokeData).isFirstCurve = true from rfl)]
  dsimp only
  rw [if_pos (show exState1.isFirstCurve = true from rfl)]
  dsimp only
  unfold curveStart curveEnd
  dsimp only
  rw [show exState1.l = Curve.line (0, -1) (10, -1) from rfl]
  dsimp only
  rw [show exState1.stroke = exParams from rfl]
  rw [join_ex]
  rfl

/-- C1 counterexample.  In the concrete trace the turn angle between
    the first and the second segment is pi/2, positive, yet after the
    step the pending left offset equals the full untrimmed offset of
    the pending segment (so the left side was not intersected or
    trimmed) and the right builder received only deferral moves and no
    join geometry, while the miter join point (11, -1) was emitted to
    the left builder: the join goes to the left side and the trim to
    the right side, the opposite of the claim. -/
theorem C1_counterexample :
    0 < angle_between (curveEndTangent exS1.c) (curveStartTangent exC2) ∧
    exS2.l = curveOffset exS2.c (- (exParams.lineWidth / 2)) ∧
    exS2.right = [Op.move (0, 1), Op.move (9, 1)] ∧
    Op.lineTo (11, -1) ∈ exS2.left := by
  have hpi := Real.pi_pos
  refine ⟨?_, ?_, ?_, ?_⟩
  · rw [exS1_eq]
    rw [show exState1.c = Curve.line (0, 0) (10, 0) from rfl]
    unfold exC2
    rw [tangent_h, tangent_v, angle_right_ex]
    linarith
  · rw [exS2_eq]
    rw [show exState2.c = Curve.line (10, 0) (10, 10) from rfl]
    rw [show (- (exParams.lineWidth / 2) : ℝ) = (- (2 / 2) : ℝ) from rfl]
    rw [offset_v_l]
    rfl
  · rw [exS2_eq]
    rfl
  · rw [exS2_eq]
    show Op.lineTo (11, -1) ∈ [Op.move (0, -1), Op.move (10, -1),
      Op.lineTo (11, -1), Op.lineTo (11, 0)]
    exact List.mem_cons_of_mem _ (List.mem_cons_of_mem _ (List.mem_cons_self _ _))

/-- C1 amended: for consecutive segments whose signed turn angle is
    positive (and past the straight threshold), when the intersection
    of the two right offsets succeeds the stroker synthesizes the join
    on the LEFT offset side and intersects and trims the RIGHT offset
    side: the new pending r is the start-trimmed right offset, the new
    pending l is the untouched left offset, the join geometry is
    appended to the left builder and the right builder receives only
    the flushed trimmed right offset. -/
theorem C1_theorem (ix : Intersector) (s : StrokeData) (curve r l : Curve)
    (t1 t2 : ℝ) (p : Point)
    (h1 : ¬ |angle_between (curveEndTangent s.c) (curveStartTangent curve)| <
      degToRad 5)
    (h2 : 0 < angle_between (curveEndTangent s.c) (curveStartTangent curve))
    (h3 : ix s.r r = some (t1, t2, p)) :
    (add_segments ix s curve r l).l = l ∧
    (add_segments ix s curve r l).r = (curveSplit r t2).2 ∧
    (add_segments ix s curve r l).left =
      s.left ++
        (if s.isFirstCurve then [Op.move (curveEnd s.l)] else curveToOps s.l) ++
        add_line_join s.stroke (curveStart curve) (curveEnd s.l)
          (curveEndTangent s.c) (curveStart l) (curveStartTangent curve)
          (angle_between (curveEndTangent s.c) (curveStartTangent curve)) ∧
    (add_segments ix s curve r l).right =
      s.right ++
        (if s.isFirstCurve then [Op.move (curveEnd (curveSplit s.r t1).1)]
          else curveToOps (curveSplit s.r t1).1) := by
  unfold add_segments
  dsimp only
  rw [if_neg h1, if_pos h2, h3]
  dsimp only
  unfold append_right append_left
  dsimp only
  split_ifs <;> exact ⟨rfl, rfl, rfl, rfl⟩

/-- C1 witness: the amended theorem applied to the concrete trace. -/
theorem C1_witness :
    (¬ |angle_between (curveEndTangent exState1.c) (curveStartTangent exC2)| <
      degToRad 5) ∧
    (0 < angle_between (curveEndTangent exState1.c) (curveStartTangent exC2)) ∧
    ixLine exState1.r exR2 = some (9 / 10, 1 / 10, ((9 : ℝ), (1 : ℝ))) ∧
    ((add_segments ixLine exState1 exC2 exR2 exL2).l = exL2 ∧
    (add_segments ixLine exState1 exC2 exR2 exL2).r =
      (curveSplit exR2 (1 / 10)).2 ∧
    (add_segments ixLine exState1 exC2 exR2 exL2).left =
      exState1.left ++
        (if exState1.isFirstCurve then [Op.move (curveEnd exState1.l)]
          else curveToOps exState1.l) ++
        add_line_join exState1.stroke (curveStart exC2) (curveEnd exState1.l)
          (curveEndTangent exState1.c) (curveStart exL2)
          (curveStartTangent exC2)
          (angle_between (curveEndTangent exState1.c) (curveStartTangent exC2)) ∧
    (add_segments ixLine exState1 exC2 exR2 exL2).right =
      exState1.right ++
        (if exState1.isFirstCurve then
          [Op.move (curveEnd (curveSplit exState1.r (9 / 10)).1)]
          else curveToOps (curveSplit exState1.r (9 / 10)).1)) := by
  have hpi := Real.pi_pos
  have hang : angle_between (curveEndTangent exState1.c) (curveStartTangent exC2) =
      Real.pi / 2 := by
    rw [show exState1.c = Curve.line (0, 0) (10, 0) from rfl]
    unfold exC2
    rw [tangent_h, tangent_v, angle_right_ex]
  have h1 : ¬ |angle_between (curveEndTangent exState1.c)
      (curveStartTangent exC2)| < degToRad 5 := by
    rw [hang, abs_of_pos (by linarith)]
    unfold degToRad
    intro hcon
    linarith
  have h2 : 0 < angle_between (curveEndTangent exState1.c)
      (curveStartTangent exC2) := by
    rw [hang]
    linarith
  have h3 : ixLine exState1.r exR2 = some (9 / 10, 1 / 10, ((9 : ℝ), (1 : ℝ))) := by
    rw [show exState1.r = Curve.line (0, 1) (10, 1) from rfl]
    unfold exR2
    exact ixLine_ex
  exact ⟨h1, h2, h3,
    C1_theorem ixLine exState1 exC2 exR2 exL2 (9 / 10) (1 / 10) (9, 1) h1 h2 h3⟩

theorem curveWF_offset (c : Curve) (d : ℝ) (h : curveWF c) :
    curveWF (curveOffset c d) := by
  cases c with
  | line p0 p1 => trivial
  | cubic p0 p1 p2 p3 => trivial
  | conic p0 p1 w p2 => exact h

theorem curveSplit_zero_snd (c : Curve) (h : curveWF c) : (curveSplit c 0).2 = c := by
  cases c with
  | line p0 p1 =>
    unfold curveSplit lerp
    norm_num
  | cubic p0 p1 p2 p3 =>
    unfold curveSplit lerp
    norm_num
  | conic p0 p1 w p2 =>
    have hw : w ≠ 0 := ne_of_gt h
    unfold curveSplit hlerp conicOfHom
    dsimp only
    norm_num [Real.sqrt_one, mul_div_cancel_left₀, hw]

theorem add_segments_rl (ix : Intersector) (s : StrokeData) (curve r l : Curve) :
    (add_segments ix s curve r l).c = curve ∧
    ((add_segments ix s curve r l).r = r ∨
      ∃ t, (add_segments ix s curve r l).r = (curveSplit r t).2) ∧
    ((add_segments ix s curve r l).l = l ∨
      ∃ t, (add_segments ix s curve r l).l = (curveSplit l t).2) := by
  unfold add_segments
  dsimp only
  split_ifs with hstraight hpos
  · exact ⟨rfl, Or.inl rfl, Or.inl rfl⟩
  · cases hxr : ix s.r r with
    | none => exact ⟨rfl, Or.inl rfl, Or.inl rfl⟩
    | some v => exact ⟨rfl, Or.inr ⟨v.2.1, rfl⟩, Or.inl rfl⟩
  · cases hxl : ix s.l l with
    | none => exact ⟨rfl, Or.inl rfl, Or.inl rfl⟩
    | some v => exact ⟨rfl, Or.inl rfl, Or.inr ⟨v.2.1, rfl⟩⟩

/-- C7 counterexample.  After the positive-turn step of the concrete
    trace the pending r, the line from (9, 1) to (9, 10), is NOT the
    offset of the pending segment c at distance +w/2 trimmed only at
    its end (no end-trim of the offset, which runs from (9, 0) to
    (9, 10), starts at (9, 1)); it was trimmed at its start instead. -/
theorem C7_counterexample :
    ¬ ∃ t : ℝ, exS2.r =
      (curveSplit (curveOffset exS2.c (exParams.lineWidth / 2)) t).1 := by
  rw [exS2_eq]
  rw [show exState2.c = Curve.line (10, 0) (10, 10) from rfl]
  rw [show (exParams.lineWidth / 2 : ℝ) = (2 / 2 : ℝ) from rfl]
  rw [offset_v_r]
  rintro ⟨t, ht⟩
  rw [show exState2.r = Curve.line (9, 1) (9, 10) from rfl] at ht
  rw [show (curveSplit (Curve.line (9, 0) (9, 10)) t).1 =
    Curve.line (9, 0) (lerp (9, 0) (9, 10) t) from rfl] at ht
  rw [Curve.line.injEq] at ht
  have h1 := ht.1
  rw [Prod.ext_iff] at h1
  norm_num at h1

/-- C7 amended: after every add_curve call the pending curves l and r
    are the offsets of the pending segment c at distances -w/2 and
    +w/2, each possibly trimmed only at its START (kept as the second
    half of a split of the full offset; the split parameter is 0
    exactly when no trim happened).  End adjustment happens only in
    the next join step, when the curves are flushed. -/
theorem C7_theorem (ix : Intersector) (s : StrokeData) (curve : Curve)
    (hwf : curveWF curve) :
    (add_curve ix s curve).c = curve ∧
    (∃ t, (add_curve ix s curve).r =
      (curveSplit (curveOffset curve (s.stroke.lineWidth / 2)) t).2) ∧
    (∃ t, (add_curve ix s curve).l =
      (curveSplit (curveOffset curve (- (s.stroke.lineWidth / 2))) t).2) := by
  have hr0 : (curveSplit (curveOffset curve (s.stroke.lineWidth / 2)) 0).2 =
      curveOffset curve (s.stroke.lineWidth / 2) :=
    curveSplit_zero_snd _ (curveWF_offset curve _ hwf)
  have hl0 : (curveSplit (curveOffset curve (- (s.stroke.lineWidth / 2))) 0).2 =
      curveOffset curve (- (s.stroke.lineWidth / 2)) :=
    curveSplit_zero_snd _ (curveWF_offset curve _ hwf)
  unfold add_curve
  dsimp only
  split_ifs with h
  · have hrl := add_segments_rl ix s curve
      (curveOffset curve (s.stroke.lineWidth / 2))
      (curveOffset curve (- (s.stroke.lineWidth / 2)))
    refine ⟨hrl.1, ?_, ?_⟩
    · rcases hrl.2.1 with he | ⟨t, ht⟩
      · exact ⟨0, he.trans hr0.symm⟩
      · exact ⟨t, ht⟩
    · rcases hrl.2.2 with he | ⟨t, ht⟩
      · exact ⟨0, he.trans hl0.symm⟩
      · exact ⟨t, ht⟩
  · exact ⟨rfl, ⟨0, hr0.symm⟩, ⟨0, hl0.symm⟩⟩

/-- C7 witness: the amended invariant at a concrete line segment. -/
theorem C7_witness :
    curveWF (Curve.line (0, 0) (1, 0)) ∧
    ((add_curve ixLine (initStroke exParams) (Curve.line (0, 0) (1, 0))).c =
      Curve.line (0, 0) (1, 0) ∧
    (∃ t, (add_curve ixLine (initStroke exParams) (Curve.line (0, 0) (1, 0))).r =
      (curveSplit (curveOffset (Curve.line (0, 0) (1, 0))
        ((initStroke exParams).stroke.lineWidth / 2)) t).2) ∧
    (∃ t, (add_curve ixLine (initStroke exParams) (Curve.line (0, 0) (1, 0))).l =
      (curveSplit (curveOffset (Curve.line (0, 0) (1, 0))
        (- ((initStroke exParams).stroke.lineWidth / 2))) t).2)) :=
  ⟨trivial, C7_theorem ixLine (initStroke exParams) (Curve.line (0, 0) (1, 0)) trivial⟩

/-- C5.  Stroking the open one-segment contour MOVE(0,0);
    LINE (0,0) to (10,0) with width 2, butt caps and miter joins
    deposits exactly one sub-path, the closed rectangle through (0,1),
    (10,1), (10,-1), (0,-1) (corner set (0,-1), (10,-1), (10,1),
    (0,1)), and that sub-path ends with a close operation. -/
theorem C5_theorem :
    (add_stroke ixLine exParams ev5).builder = [rect5] ∧
    rect5.getLast? = some Op.close := by
  refine ⟨?_, rfl⟩
  unfold add_stroke ev5
  dsimp only
  rw [List.foldl_cons, List.foldl_cons, List.foldl_nil]
  rw [show stroke_op ixLine (stroke_op ixLine (initStroke exParams)
    (Event.move (0, 0))) (Event.line (0, 0) (10, 0)) = exS1 from rfl]
  rw [exS1_eq]
  rw [if_pos (show exState1.hasCurrentPoint = true from rfl)]
  rfl

end PathStroke
